import Mathlib

/-!
Shallow embedding of the table-extraction module
(parser/parsers/parse_utils.py) of the osm-legal-default-speeds
repository, together with theorems checking the natural-language
specification against it.

Modelling conventions:
* Python strings are Lean Strings; character-level helpers mirror the
  exact semantics of the Python string methods used by the source
  (split on a character, strip, replace with and without a count).
* Python dicts are association lists with unique keys in insertion
  order; assignment updates the first matching key in place and
  otherwise appends, exactly like a dict.
* HTML elements (bs4 tags) are a mutual inductive tree of elements and
  text nodes.  Attribute values for rowspan and colspan are stored as
  integers, since the source immediately applies int() to them.
* Raising an exception is modelled with Except: PyErr covers the
  exception classes the source can actually raise (KeyError from the
  td cache, IndexError from list assignment, and the NameError raised
  by the reference to an undefined variable on the warning line of the
  speed-parse failure handler).
* The external collaborators (the pycountry reference database and the
  speed-text parsing function) are parameters: a Reference structure
  and a function argument, with exceptions modelled as Except/Option
  failure results.
-/

/-- Python exception outcomes reachable in parse_utils.py. -/
inductive PyErr where
  | keyError
  | indexError
  | nameError (v : String)
deriving DecidableEq, Repr

/-- Characters treated as whitespace by str.strip / get_text(strip=True). -/
def isSpaceChar (c : Char) : Bool :=
  c = ' ' || c = '\t' || c = '\n' || c = '\r' || c = '\x0b' || c = '\x0c'

/-- Python str.strip(): remove leading and trailing whitespace. -/
def pyStrip (s : String) : String :=
  ⟨((s.data.dropWhile isSpaceChar).reverse.dropWhile isSpaceChar).reverse⟩

/-- Python str.split(sep) for a single-character separator, on char lists. -/
def splitOnCharAux (sep : Char) : List Char → List Char → List (List Char)
  | [], acc => [acc.reverse]
  | c :: rest, acc =>
      if c = sep then acc.reverse :: splitOnCharAux sep rest []
      else splitOnCharAux sep rest (c :: acc)

/-- Python str.split(sep) for a single-character separator. -/
def splitOnChar (sep : Char) (s : String) : List String :=
  (splitOnCharAux sep s.data []).map (fun l => ⟨l⟩)

/-- Whether pat occurs as a contiguous substring of the second list. -/
def occursIn (pat : List Char) : List Char → Bool
  | [] => pat.isEmpty
  | c :: rest => pat.isPrefixOf (c :: rest) || occursIn pat rest

/-- Python str.replace(pat, rep, 1): replace the first occurrence only. -/
def replaceFirst (pat rep : List Char) : List Char → List Char
  | [] => []
  | c :: rest =>
      if pat.isPrefixOf (c :: rest) then rep ++ (c :: rest).drop pat.length
      else c :: replaceFirst pat rep rest

/-- Fuel-driven core of replaceAll; the fuel is always at least the
length of the list, so it never runs out. -/
def replaceAllAux (pat rep : List Char) : Nat → List Char → List Char
  | _, [] => []
  | 0, l => l
  | fuel+1, c :: rest =>
      if pat ≠ [] && pat.isPrefixOf (c :: rest) then
        rep ++ replaceAllAux pat rep fuel (rest.drop (pat.length - 1))
      else c :: replaceAllAux pat rep fuel rest

/-- Python str.replace(pat, rep): replace all non-overlapping
occurrences left to right. -/
def replaceAll (pat rep l : List Char) : List Char :=
  replaceAllAux pat rep l.length l

/-- Separator-joining of a list of strings (str.join). -/
def joinSep (sep : String) : List String → String
  | [] => ""
  | [s] => s
  | s :: rest => s ++ sep ++ joinSep sep rest

/-- Lookup in an insertion-ordered association list (Python dict read). -/
def lookupAssoc {β : Type} : List (String × β) → String → Option β
  | [], _ => none
  | e :: rest, k => if e.1 = k then some e.2 else lookupAssoc rest k

/-- Python dict assignment d[k] = v: update the existing key in place,
otherwise append a new entry. -/
def pyDictSet {β : Type} : List (String × β) → String → β → List (String × β)
  | [], k, v => [(k, v)]
  | e :: rest, k, v => if e.1 = k then (k, v) :: rest else e :: pyDictSet rest k v

/-! ## TableRowHelper (the Grid Resolver)

The td_cache dict of TableRowHelper maps a column index to the pair
(remaining row count, cell).  The remaining count is an Int because the
Python code decrements it without any lower bound.  The helper is
generic in the cell type; the accessor arguments rsOf and csOf read the
rowspan/colspan attribute of a cell (int(td.get("rowspan", 1))). -/

/-- The td_cache of TableRowHelper: column index to (remaining, cell). -/
abbrev Cache (α : Type) := List (Nat × Int × α)

/-- Dict read td_cache[k]. -/
def lookupCache {α : Type} : Cache α → Nat → Option (Int × α)
  | [], _ => none
  | e :: rest, k => if e.1 = k then some e.2 else lookupCache rest k

/-- Membership test col_idx in td_cache. -/
def containsKey {α : Type} (cache : Cache α) (k : Nat) : Bool :=
  (lookupCache cache k).isSome

/-- Dict assignment td_cache[k] = v. -/
def cacheSet {α : Type} : Cache α → Nat → Int × α → Cache α
  | [], k, v => [(k, v)]
  | e :: rest, k, v => if e.1 = k then (k, v) :: rest else e :: cacheSet rest k v

/-- The decrement-and-evict pass at the top of set_tds: entries whose
remaining count is exactly 1 are deleted, every other entry has its
count decremented by one. -/
def evictTick {α : Type} : Cache α → Cache α
  | [] => []
  | (k, r, v) :: rest =>
      if r = 1 then evictTick rest else (k, r - 1, v) :: evictTick rest

/-- Fuel-driven core of nextFree (the while col_idx in self.td_cache
loop); fuel larger than the cache size always suffices. -/
def nextFreeAux {α : Type} (cache : Cache α) : Nat → Nat → Nat
  | 0, i => i
  | fuel+1, i => if containsKey cache i then nextFreeAux cache fuel (i+1) else i

/-- Advance the column cursor past columns still held by the cache. -/
def nextFree {α : Type} (cache : Cache α) (i : Nat) : Nat :=
  nextFreeAux cache (cache.length + 1) i

/-- The inner colspan loop of set_tds: write (rowspan, cell) into n
consecutive columns starting at colIdx, returning the new cache and the
final cursor. -/
def writeCols {α : Type} : Cache α → Nat → Nat → Int → α → Cache α × Nat
  | cache, colIdx, 0, _, _ => (cache, colIdx)
  | cache, colIdx, Nat.succ k, rs, v =>
      writeCols (cacheSet cache colIdx (rs, v)) (colIdx + 1) k rs v

/-- The insertion pass of set_tds over the row cells, also returning
the list of column indices that were written (for frame reasoning). -/
def insertTdsAux {α : Type} (rsOf csOf : α → Int) :
    Cache α → Nat → List α → Cache α × List Nat
  | cache, _, [] => (cache, [])
  | cache, colIdx, td :: rest =>
      let rs := rsOf td
      let start := nextFree cache colIdx
      let n := (csOf td).toNat
      let out := writeCols cache start n rs td
      let tail := insertTdsAux rsOf csOf out.1 out.2 rest
      (tail.1, (List.range n).map (fun j => start + j) ++ tail.2)

/-- TableRowHelper.set_tds: evict expiring spans, then insert the new
physical row. -/
def set_tds {α : Type} (rsOf csOf : α → Int) (cache : Cache α) (tds : List α) : Cache α :=
  (insertTdsAux rsOf csOf (evictTick cache) 0 tds).1

/-- Column indices written while inserting this physical row. -/
def writtenCols {α : Type} (rsOf csOf : α → Int) (cache : Cache α) (tds : List α) : List Nat :=
  (insertTdsAux rsOf csOf (evictTick cache) 0 tds).2

/-- TableRowHelper.get_td: td_cache[idx][1]; a missing column raises
KeyError. -/
def get_td {α : Type} (cache : Cache α) (idx : Nat) : Except PyErr α :=
  match lookupCache cache idx with
  | some rv => .ok rv.2
  | none => .error .keyError

/-- Feed a list of physical rows to set_tds in order. -/
def runRows {α : Type} (rsOf csOf : α → Int) (cache : Cache α) (rows : List (List α)) : Cache α :=
  rows.foldl (set_tds rsOf csOf) cache

/-- The cache keys are pairwise distinct; every cache reachable from
the empty one has this property, matching Python dict keys. -/
def KeysNodup {α : Type} (cache : Cache α) : Prop :=
  (cache.map (fun e => e.1)).Nodup

/-! ## The DOM tree (bs4 element.Tag boundary) -/

mutual
/-- An HTML node: an element with a name, attributes and children, or a
text node.  Rowspan/colspan attribute values are kept as the integers
the source obtains from int(). -/
inductive Node where
  | elem (name : String) (attrs : List (String × Int)) (children : NodeList)
  | text (s : String)
deriving Repr
/-- Children of an element, as a dedicated list type so that all
traversals are structural (and hence kernel-reducible). -/
inductive NodeList where
  | nil
  | cons (hd : Node) (tl : NodeList)
deriving Repr
end

/-- Build a NodeList from a Lean list. -/
def nl : List Node → NodeList
  | [] => .nil
  | n :: rest => .cons n (nl rest)

/-- Attribute lookup tag.get(key, dflt) followed by int(). -/
def getAttr (dflt : Int) (key : String) : Node → Int
  | .elem _ attrs _ =>
      match attrs.find? (fun a => a.1 = key) with
      | some a => a.2
      | none => dflt
  | .text _ => dflt

/-- Reading int(td.get("rowspan", 1)). -/
def nodeRowspan (n : Node) : Int := getAttr 1 "rowspan" n

/-- Reading int(td.get("colspan", 1)). -/
def nodeColspan (n : Node) : Int := getAttr 1 "colspan" n

/-- The is_uninteresting predicate: tag.name in {"sup", "img"}. -/
def is_uninteresting : Node → Bool
  | .elem n _ _ => n = "sup" || n = "img"
  | .text _ => false

mutual
/-- Effect of the decompose() loop: every descendant element whose name
is sup or img is removed from the tree.  The Python code performs this
destructively on the very table object the caller passed in; the
embedding returns the table as it is after the call. -/
def stripJunk : Node → Node
  | .text s => .text s
  | .elem n a cs => .elem n a (stripJunkList cs)
/-- stripJunk on a child list. -/
def stripJunkList : NodeList → NodeList
  | .nil => .nil
  | .cons c cs =>
      if is_uninteresting c then stripJunkList cs
      else .cons (stripJunk c) (stripJunkList cs)
end

mutual
/-- bs4 find_all(name): the descendants (in document order) whose
element name equals nm. -/
def findAll (nm : String) : Node → List Node
  | .text _ => []
  | .elem _ _ cs => findAllList nm cs
/-- findAll over a child list: each matching child, then its matching
descendants, then the later siblings. -/
def findAllList (nm : String) : NodeList → List Node
  | .nil => []
  | .cons c cs =>
      (match c with
       | .elem n _ _ => if n = nm then [c] else []
       | .text _ => []) ++ findAll nm c ++ findAllList nm cs
end

mutual
/-- All text fragments below a node, in document order. -/
def textFragments : Node → List String
  | .text s => [s]
  | .elem _ _ cs => textFragmentsList cs
/-- textFragments over a child list. -/
def textFragmentsList : NodeList → List String
  | .nil => []
  | .cons c cs => textFragments c ++ textFragmentsList cs
end

/-- bs4 get_text(strip=True): strip each fragment, drop the empty ones,
concatenate. -/
def getTextStrip (n : Node) : String :=
  joinSep "" (((textFragments n).map pyStrip).filter (fun s => ¬ s = ""))

/-- bs4 get_text(" ", strip=True): strip each fragment, drop the empty
ones, join with single spaces. -/
def getTextSpace (n : Node) : String :=
  joinSep " " (((textFragments n).map pyStrip).filter (fun s => ¬ s = ""))

/-! ## Jurisdiction code resolution -/

/-- One subdivision record of the external reference database. -/
structure Subdivision where
  name : String
  code : String
deriving DecidableEq, Repr

/-- The external pycountry boundary: exact country lookup returning the
alpha-2 code (None models any lookup exception), and subdivision
enumeration for a country code. -/
structure Reference where
  lookupAlpha2 : String → Option String
  subdivisions : String → List Subdivision

/-- The manual override table country_codes from the source, verbatim. -/
def country_codes : List (String × String) :=
  [("Brunei", "BN"),
   ("Belgium:Brussels-Capital Region", "BE-BRU"),
   ("Belgium:Flanders", "BE-VLG"),
   ("Belgium:Wallonia", "BE-WAL"),
   ("Democratic Republic of the Congo", "CD"),
   ("Kosovo", "XK"),
   ("Micronesia", "FM"),
   ("Micronesia:Kosrae", "FM-KSA"),
   ("Micronesia:Pohnpei", "FM-PNI"),
   ("Micronesia:Chuuk", "FM-TRK"),
   ("Micronesia:Yap", "FM-YAP"),
   ("Netherlands:Bonaire", "NL-BQ1"),
   ("Netherlands:Saba", "NL-BQ2"),
   ("Netherlands:Sint Eustatius", "NL-BQ3"),
   ("Palestine", "PS"),
   ("Pitcairn Islands", "PN"),
   ("Russia", "RU"),
   ("Turkey", "TR"),
   ("United Kingdom:Scotland", "GB-SCT")]

/-- get_country_code from the source: override table first; otherwise
split the name on every colon, strip segment 0 as the country name,
look it up in the reference, and when the split produced more than one
segment return the code of the first subdivision whose name equals the
stripped segment 1 (None when nothing matches or any lookup fails). -/
def get_country_code (ref : Reference) (name : String) : Option String :=
  match lookupAssoc country_codes name with
  | some c => some c
  | none =>
      let country_and_subdivision_name := splitOnChar ':' name
      let country_name := pyStrip (country_and_subdivision_name.headD "")
      match ref.lookupAlpha2 country_name with
      | none => none
      | some country_code =>
          if country_and_subdivision_name.length > 1 then
            let subdivision_name := pyStrip (country_and_subdivision_name.getD 1 "")
            match (ref.subdivisions country_code).find?
                (fun s => s.name = subdivision_name) with
            | some s => some s.code
            | none => none
          else some country_code

/-! ## The speed table extractor -/

/-- The tag-key rewrite applied per produced key in parse_speed_table:
for a vehicle-type column other than "(default)", the first substring
occurrence of "maxspeed" is replaced by "maxspeed:" + vehicle_type, and
then every substring occurrence of "access" is replaced by the vehicle
type. -/
def rewriteKey (vehicle_type key : String) : String :=
  if vehicle_type ≠ "(default)" then
    let k1 := replaceFirst "maxspeed".data ("maxspeed:" ++ vehicle_type).data key.data
    ⟨replaceAll "access".data vehicle_type.data k1⟩
  else key

/-- The external speed-text parsing function: cell text to the items of
the produced tag dict, or an exception. -/
abbrev SpeedParseFunc := String → Except Unit (List (String × String))

/-- One entry of speedLimitsByCountryCode: the merged tags and the
optional road-type name (present only when the road type is non-empty). -/
structure RoadEntry where
  tags : List (String × String)
  name : Option String
deriving DecidableEq, Repr

/-- The value parse_speed_table returns on success. -/
structure SpeedResult where
  speedLimitsByCountryCode : List (String × List RoadEntry)
  warnings : List String
deriving DecidableEq, Repr

/-- The mutable state of the parse_speed_table loop. -/
structure SpeedState where
  columnNames : List String
  result : List (String × List RoadEntry)
  warnings : List String
  helper : Cache Node

/-- Append an entry to the per-country list, creating it on first use
(the result[country_code] handling of the source). -/
def dictAppendEntry : List (String × List RoadEntry) → String → RoadEntry →
    List (String × List RoadEntry)
  | [], cc, e => [(cc, [e])]
  | p :: rest, cc, e =>
      if p.1 = cc then (p.1, p.2 ++ [e]) :: rest
      else p :: dictAppendEntry rest cc e

/-- The first-header-row branch: one column name per logical column,
colspan expanded. -/
def initialNames (ths : List Node) : List String :=
  ths.flatMap (fun th => List.replicate (nodeColspan th).toNat (getTextStrip th))

/-- The inner revision loop for j in range(colspan):
column_names[i + j] = th_text; assignment past the end of the list
raises IndexError. -/
def writeRange : List String → Nat → Nat → String → Except PyErr (List String)
  | names, _, 0, _ => .ok names
  | names, i, Nat.succ k, t =>
      if i < names.length then writeRange (names.set i t) (i+1) k t
      else .error .indexError

/-- The header revision branch: the cell at ordinal position i among
the th tags of the row, when its text is non-empty, overwrites
column_names[i + j] for j below its colspan. -/
def reviseNamesAux : List Node → Nat → List String → Except PyErr (List String)
  | [], _, names => .ok names
  | th :: rest, i, names =>
      let t := getTextStrip th
      if t ≠ "" then
        match writeRange names i (nodeColspan th).toNat t with
        | .ok names2 => reviseNamesAux rest (i+1) names2
        | .error e => .error e
      else reviseNamesAux rest (i+1) names

/-- Column-name handling of one row of parse_speed_table. -/
def processThs (names : List String) (ths : List Node) : Except PyErr (List String) :=
  if ths.length > 0 then
    if names.length = 0 then .ok (initialNames ths)
    else reviseNamesAux ths 0 names
  else .ok names

/-- One data-column step of the speed loop.  On a speed-parse failure
the source assigns an empty dict and then evaluates a warning f-string
that references country_and_subdivision_name, a variable that does not
exist in parse_speed_table (it is local to get_country_code), so Python
raises NameError there and the whole extraction aborts. -/
def colLoopStep (f : SpeedParseFunc) (helper : Cache Node) (names : List String)
    (roadTags : List (String × String)) (colIdx : Nat) :
    Except PyErr (List (String × String)) := do
  let td ← get_td helper colIdx
  let speeds := getTextStrip td
  if speeds ≠ "" then
    let vehicle_type := names.getD colIdx ""
    match f speeds with
    | .ok parsed_speeds =>
        pure (parsed_speeds.foldl
          (fun acc kv => pyDictSet acc (rewriteKey vehicle_type kv.1) kv.2) roadTags)
    | .error _ => .error (.nameError "country_and_subdivision_name")
  else
    pure roadTags

/-- One tr of parse_speed_table: header handling, set_tds, then the
data-row branch with jurisdiction resolution and the speed columns. -/
def processRow (ref : Reference) (f : SpeedParseFunc) (st : SpeedState) (row : Node) :
    Except PyErr SpeedState := do
  let ths := findAll "th" row
  let names ← processThs st.columnNames ths
  let tds := findAll "td" row
  let helper := set_tds nodeRowspan nodeColspan st.helper tds
  if tds.isEmpty then
    pure { columnNames := names, result := st.result, warnings := st.warnings,
           helper := helper }
  else do
    let c0 ← get_td helper 0
    let country := getTextStrip c0
    match get_country_code ref country with
    | none =>
        pure { columnNames := names, result := st.result,
               warnings := st.warnings ++ [country ++ ": Unknown country / subdivision"],
               helper := helper }
    | some country_code => do
        let c1 ← get_td helper 1
        let road_type := getTextStrip c1
        let road_tags ← (List.range' 2 (names.length - 2)).foldlM
          (colLoopStep f helper names) []
        let entry : RoadEntry :=
          { tags := road_tags,
            name := if road_type ≠ "" then some road_type else none }
        pure { columnNames := names,
               result := dictAppendEntry st.result country_code entry,
               warnings := st.warnings, helper := helper }

/-- parse_speed_table: strip decorations (in place, on the very table
the caller passed), then fold the rows.  The second component of the
result is the state of the table object after the call. -/
def parse_speed_table (ref : Reference) (f : SpeedParseFunc) (table : Node) :
    Except PyErr SpeedResult × Node :=
  let t := stripJunk table
  let rows := findAll "tr" t
  ((rows.foldlM (processRow ref f) ⟨[], [], [], []⟩).map
      (fun st => { speedLimitsByCountryCode := st.result, warnings := st.warnings }),
   t)

/-! ## The road-types table extractor -/

/-- One road-class value: the up to three optional filter strings, a
key being present exactly when the source dict holds it. -/
structure RoadClass where
  filter : Option String
  fuzzyFilter : Option String
  relationFilter : Option String
deriving DecidableEq, Repr

/-- One tr of parse_road_types_table. -/
def roadTypesRow (acc : List (String × RoadClass) × Cache Node) (row : Node) :
    Except PyErr (List (String × RoadClass) × Cache Node) := do
  let tds := findAll "td" row
  let helper := set_tds nodeRowspan nodeColspan acc.2 tds
  if tds.isEmpty then
    pure (acc.1, helper)
  else do
    let t0 ← get_td helper 0
    let t1 ← get_td helper 1
    let t2 ← get_td helper 2
    let t3 ← get_td helper 3
    let road_type := getTextStrip t0
    let tags_filter := getTextSpace t1
    let fuzzy_tags_filter := getTextSpace t2
    let relation_tags_filter := getTextSpace t3
    let rc : RoadClass :=
      { filter := if tags_filter ≠ "" then some tags_filter else none,
        fuzzyFilter := if fuzzy_tags_filter ≠ "" then some fuzzy_tags_filter else none,
        relationFilter := if relation_tags_filter ≠ "" then some relation_tags_filter else none }
    pure (pyDictSet acc.1 road_type rc, helper)

/-- parse_road_types_table: strip decorations in place, then fold the
rows.  The second component is the table object after the call. -/
def parse_road_types_table (table : Node) :
    Except PyErr (List (String × RoadClass)) × Node :=
  let t := stripJunk table
  (((findAll "tr" t).foldlM roadTypesRow ([], [])).map (fun p => p.1), t)

/-! ## The cross-reference validator -/

/-- Scan inside one brace: the characters up to the first closing
brace, failing when a newline or the end of the string comes first
(the regex dot does not match a newline). -/
def braceSegment : List Char → Option (List Char × List Char)
  | [] => none
  | c :: rest =>
      if c = '}' then some ([], rest)
      else if c = '\n' then none
      else (braceSegment rest).map (fun p => (c :: p.1, p.2))

/-- Fuel-driven scan for all matches of the non-greedy brace pattern;
fuel at least the length of the list always suffices. -/
def findPlaceholdersAux : Nat → List Char → List (List Char)
  | _, [] => []
  | 0, _ => []
  | fuel+1, c :: rest =>
      if c = '{' then
        match braceSegment rest with
        | some p => p.1 :: findPlaceholdersAux fuel p.2
        | none => findPlaceholdersAux fuel rest
      else findPlaceholdersAux fuel rest

/-- All placeholders of a filter string, in scan order (the text
between the braces of each match of the non-greedy regex). -/
def findPlaceholders (s : String) : List String :=
  (findPlaceholdersAux s.data.length s.data).map (fun l => ⟨l⟩)

/-- The all_filters list of validate_road_types, in source order. -/
def allFilters (rc : RoadClass) : List String :=
  (match rc.filter with | some f => [f] | none => []) ++
  (match rc.fuzzyFilter with | some f => [f] | none => []) ++
  (match rc.relationFilter with | some f => [f] | none => [])

/-- validate_road_types from the source: one warning per placeholder
that is not a key of the road-types mapping, in traversal order. -/
def validate_road_types (road_types : List (String × RoadClass)) : List String :=
  road_types.flatMap (fun p =>
    (allFilters p.2).flatMap (fun f =>
      (findPlaceholders f).flatMap (fun tok =>
        if (lookupAssoc road_types tok).isSome then []
        else [p.1 ++ ": Unable to map \x27" ++ tok ++ "\x27"])))

/-! ## Concrete fixtures used by witnesses and counterexamples -/

/-- A reference in which every lookup fails. -/
def emptyRef : Reference :=
  { lookupAlpha2 := fun _ => none, subdivisions := fun _ => [] }

/-- A th element containing one text fragment. -/
def thCell (s : String) : Node := .elem "th" [] (nl [.text s])

/-- A td element containing one text fragment. -/
def tdCell (s : String) : Node := .elem "td" [] (nl [.text s])

/-- A speed table with one header row and one data row whose speed cell
makes the parse function raise. -/
def c1Table : Node := .elem "table" [] (nl [
  .elem "tr" [] (nl [thCell "Country", thCell "Road type", thCell "(default)"]),
  .elem "tr" [] (nl [tdCell "Brunei", tdCell "", tdCell "30"])])

/-- A speed-parse function that raises on every input. -/
def c1Fail : SpeedParseFunc := fun _ => .error ()

/-- Cells for grid-resolver scenarios: (id, rowspan, colspan). -/
def rsOfT (t : Nat × Int × Int) : Int := t.2.1

/-- Colspan accessor for (id, rowspan, colspan) cells. -/
def csOfT (t : Nat × Int × Int) : Int := t.2.2

/-- First physical row: two plain cells, then cell 42 with rowspan 3. -/
def c2Row1 : List (Nat × Int × Int) := [(1,1,1),(2,1,1),(42,3,1)]

/-- Second physical row: cell 99 with colspan 5, overrunning column 2. -/
def c2Row2 : List (Nat × Int × Int) := [(99,1,5)]

/-- A td carrying colspan 0. -/
def c6ColTd : Node := .elem "td" [("colspan", 0)] (nl [.text "x"])

/-- A td carrying rowspan 0. -/
def c6RowTd : Node := .elem "td" [("rowspan", 0)] (nl [.text "y"])

/-- A reference under which country X has a subdivision literally named
Sub:division and another named Sub. -/
def c7Ref : Reference :=
  { lookupAlpha2 := fun s => if s = "X" then some "XX" else none,
    subdivisions := fun c =>
      if c = "XX" then [⟨"Sub:division","XX-1"⟩, ⟨"Sub","XX-2"⟩] else [] }

/-- A table containing a decoration element (sup) next to a data row. -/
def c8Table : Node := .elem "table" []
  (nl [.elem "tr" [] (nl [tdCell "a"]), .elem "sup" [] (nl [.text "1"])])

/-- The one-entry road-type mapping of the spec example: trunk with a
filter referencing the undefined placeholder primary. -/
def c9Trunk : List (String × RoadClass) :=
  [("trunk", ⟨some "highway={primary}", none, none⟩)]

/-- A revision header cell with colspan 2 and text Y. -/
def c10ThY : Node := .elem "th" [("colspan", 2)] (nl [.text "Y"])

/-- A speed-parse function that always succeeds with no tags. -/
def okEmptyF : SpeedParseFunc := fun _ => .ok []

/-- Ordinal-index description of the header revision (stated from the
claim): walking the th tags with a running ordinal index i, a cell with
non-empty text overwrites the positions from i up to i plus its colspan
(exclusive); later cells win.  This is compared against the source
revision loop reviseNamesAux. -/
def reviseValueAux (p : Nat) : Nat → List Node → String → String
  | _, [], orig => orig
  | i, th :: rest, orig =>
      reviseValueAux p (i+1) rest
        (if getTextStrip th ≠ "" ∧ i ≤ p ∧ p < i + (nodeColspan th).toNat
         then getTextStrip th else orig)

/-- All writes of the revision loop stay inside the column-name list:
each non-empty th at ordinal index i either writes nothing (colspan 0)
or ends at an index at most the length. -/
def inBoundsThs (len : Nat) : Nat → List Node → Bool
  | _, [] => true
  | i, th :: rest =>
      (getTextStrip th = "" || (nodeColspan th).toNat = 0 ||
        i + (nodeColspan th).toNat ≤ len)
      && inBoundsThs len (i+1) rest

/-- A data row whose jurisdiction cell is an unknown name. -/
def c5Row : Node := .elem "tr" [] (nl [tdCell "Unknownland"])

/-! # Claim theorems and supporting lemmas -/

/-- C1: the claim says a failure of the external speed-parsing function
degrades to an empty tag set plus a warning naming the jurisdiction,
the vehicle-type column header and the road type, and never aborts the
extraction.  In the source the warning f-string references
country_and_subdivision_name, a variable that exists only inside
get_country_code, so the handler itself raises NameError and the whole
extraction aborts.  On a concrete table whose one populated speed cell
makes the parse function raise, the extractor returns that NameError
instead of a result carrying a warning. -/
theorem C1_speed_parse_failure_aborts :
    (parse_speed_table emptyRef c1Fail c1Table).1 =
      .error (.nameError "country_and_subdivision_name") := rfl

/-- C2 counterexample: cell 42 enters the grid at column 2 with
row_span 3, yet at the very next row the first cell (col_span 5)
overruns column 2 during colspan expansion, so get at column 2 returns
cell 99 rather than cell 42 on the second of the three rows the claim
promises. -/
theorem C2_rowspan_counterexample :
    lookupCache (set_tds rsOfT csOfT [] c2Row1) 2 = some (3, (42,3,1)) ∧
    get_td (set_tds rsOfT csOfT (set_tds rsOfT csOfT [] c2Row1) c2Row2) 2 =
      .ok (99,1,5) ∧
    ((99,1,5) : Nat × Int × Int) ≠ (42,3,1) :=
  ⟨rfl, rfl, by decide⟩

/-- C3 counterexample: the key accessory is neither exactly access nor
does it contain maxspeed as a colon-separated component, so by the
claim it must pass through unchanged; the source rewrites every
substring occurrence of access, turning it into hgvory for vehicle
type hgv. -/
theorem C3_key_rewrite_counterexample :
    rewriteKey "hgv" "accessory" = "hgvory" ∧
    "accessory" ≠ "access" ∧
    ((splitOnChar ':' "accessory").contains "maxspeed") = false ∧
    "hgvory" ≠ "accessory" :=
  ⟨rfl, by decide, by decide, by decide⟩

/-- C6 counterexample: a td with colspan 0 is inserted into no column
at all (the claim promises exactly one column), and a td with rowspan 0
is still in the grid on the row after its own, with its remaining count
decremented to -1 (the claim promises eviction after one row). -/
theorem C6_span_zero_counterexample :
    set_tds nodeRowspan nodeColspan [] [c6ColTd] = [] ∧
    lookupCache (set_tds nodeRowspan nodeColspan
      (set_tds nodeRowspan nodeColspan [] [c6RowTd]) []) 0 = some (-1, c6RowTd) :=
  ⟨rfl, rfl⟩

/-- C7 counterexample: the claim says X:Sub:division splits at the
first colon only, yielding subdivision text Sub:division, which under
c7Ref names the subdivision with code XX-1.  The source splits on every
colon and uses segment 1, so the subdivision text is Sub and the
resolver returns XX-2. -/
theorem C7_split_counterexample :
    get_country_code c7Ref "X:Sub:division" = some "XX-2" ∧
    pyStrip ((splitOnChar ':' "X:Sub:division").getD 1 "") = "Sub" ∧
    (c7Ref.subdivisions "XX").find? (fun s => s.name = "Sub:division") =
      some ⟨"Sub:division","XX-1"⟩ ∧
    ("XX-2" : String) ≠ "XX-1" :=
  ⟨rfl, rfl, rfl, by decide⟩

/-- C8 counterexample: the claim says the caller's table still contains
its decoration elements after an extractor runs.  The source calls
decompose() on the table object itself: after parse_road_types_table
the table contains no sup descendant although it contained one before,
so the table object is not the one the caller passed in unchanged. -/
theorem C8_inplace_counterexample :
    (parse_road_types_table c8Table).2 ≠ c8Table ∧
    findAll "sup" c8Table ≠ [] ∧
    findAll "sup" ((parse_road_types_table c8Table).2) = [] := by
  refine ⟨?_, ?_, rfl⟩
  · intro h
    have h1 : findAll "sup" ((parse_road_types_table c8Table).2) = [] := rfl
    rw [h] at h1
    have h2 : findAll "sup" c8Table = [Node.elem "sup" [] (nl [.text "1"])] := rfl
    rw [h2] at h1
    exact List.noConfusion h1
  · intro h
    have h2 : findAll "sup" c8Table = [Node.elem "sup" [] (nl [.text "1"])] := rfl
    rw [h2] at h
    exact List.noConfusion h

/-- C4: the resolver exact-matches the whole display name against the
manual override table first and returns that code before consulting the
reference; Brunei resolves to BN and Belgium:Flanders to BE-VLG under
every reference; and a name matching neither the override table nor the
reference resolves to no code. -/
theorem C4_override_precedence :
    (∀ (ref : Reference) (name c : String),
        lookupAssoc country_codes name = some c →
        get_country_code ref name = some c)
    ∧ (∀ ref : Reference, get_country_code ref "Brunei" = some "BN")
    ∧ (∀ ref : Reference, get_country_code ref "Belgium:Flanders" = some "BE-VLG")
    ∧ (∀ (ref : Reference) (name : String),
        lookupAssoc country_codes name = none →
        ref.lookupAlpha2 (pyStrip ((splitOnChar ':' name).headD "")) = none →
        get_country_code ref name = none) := by
  refine ⟨?_, fun ref => rfl, fun ref => rfl, ?_⟩
  · intro ref name c h
    unfold get_country_code
    rw [h]
  · intro ref name h1 h2
    unfold get_country_code
    rw [h1]
    simp only [h2]

/-- C4 witness: the override and failure branches at concrete names. -/
theorem C4_override_precedence_witness :
    get_country_code emptyRef "Brunei" = some "BN" ∧
    get_country_code emptyRef "Belgium:Flanders" = some "BE-VLG" ∧
    get_country_code emptyRef "Unknownland" = none :=
  ⟨C4_override_precedence.2.1 emptyRef,
   C4_override_precedence.2.2.1 emptyRef,
   C4_override_precedence.2.2.2 emptyRef "Unknownland" (by decide) rfl⟩

/-- A pattern that occurs nowhere in a list is left alone by the
single-occurrence replacement. -/
theorem replaceFirst_no_occurrence (pat rep : List Char) :
    ∀ l, occursIn pat l = false → replaceFirst pat rep l = l := by
  intro l
  induction l with
  | nil => intro _; rfl
  | cons c rest ih =>
      intro h
      rw [occursIn, Bool.or_eq_false_iff] at h
      rw [replaceFirst, if_neg (by simp [h.1]), ih h.2]

/-- A pattern that occurs nowhere in a list is left alone by the
replace-all helper, for every fuel. -/
theorem replaceAllAux_no_occurrence (pat rep : List Char) :
    ∀ (fuel : Nat) (l : List Char), occursIn pat l = false →
      replaceAllAux pat rep fuel l = l := by
  intro fuel
  induction fuel with
  | zero => intro l _; cases l <;> rfl
  | succ n ih =>
      intro l h
      cases l with
      | nil => rfl
      | cons c rest =>
          rw [occursIn, Bool.or_eq_false_iff] at h
          rw [replaceAllAux, if_neg (by simp [h.1]), ih rest h.2]

/-- Rebuilding a string from its character data is the identity. -/
theorem stringMk_data (s : String) : String.mk s.data = s := rfl

/-- C3 amended: the source rewrites by plain substring surgery, not by
component matching: for a vehicle type other than "(default)" the first
substring occurrence of maxspeed is replaced by maxspeed:vt and then
every substring occurrence of access is replaced by vt (so accessory
becomes hgvory); keys containing neither substring pass through
unchanged, and the "(default)" column leaves every key unchanged. -/
theorem C3_key_rewrite :
    (∀ key : String, rewriteKey "(default)" key = key)
    ∧ (∀ (vt key : String), occursIn "maxspeed".data key.data = false →
        occursIn "access".data key.data = false → rewriteKey vt key = key)
    ∧ rewriteKey "hgv" "maxspeed" = "maxspeed:hgv"
    ∧ rewriteKey "bicycle" "access" = "bicycle"
    ∧ rewriteKey "hgv" "maxspeed:conditional" = "maxspeed:hgv:conditional"
    ∧ rewriteKey "hgv" "accessory" = "hgvory" := by
  refine ⟨?_, ?_, rfl, rfl, rfl, rfl⟩
  · intro key
    simp [rewriteKey]
  · intro vt key h1 h2
    unfold rewriteKey
    by_cases hv : vt = "(default)"
    · rw [if_neg (by simp [hv])]
    · rw [if_pos (by simp [hv])]
      rw [replaceFirst_no_occurrence _ _ _ h1]
      unfold replaceAll
      simp only [replaceAllAux_no_occurrence _ _ _ _ h2]

/-- C3 witness: a key containing neither substring passes through. -/
theorem C3_key_rewrite_witness :
    rewriteKey "hgv" "lanes" = "lanes" :=
  C3_key_rewrite.2.1 "hgv" "lanes" (by decide) (by decide)

/-- C9: a warning naming the road type and the placeholder is emitted
for every placeholder token of every present filter expression that is
not a key of the road-type mapping; the warning list is empty exactly
when every such token is a key; and the trunk/primary example produces
exactly the one expected warning.  The embedded pass is a pure function
of the mapping, so it cannot mutate its input. -/
theorem C9_placeholder_validation :
    (∀ (rts : List (String × RoadClass)) (rt : String) (rc : RoadClass)
        (f tok : String),
        (rt, rc) ∈ rts → f ∈ allFilters rc → tok ∈ findPlaceholders f →
        lookupAssoc rts tok = none →
        (rt ++ ": Unable to map \x27" ++ tok ++ "\x27") ∈ validate_road_types rts)
    ∧ (∀ rts, validate_road_types rts = [] ↔
        ∀ p ∈ rts, ∀ f ∈ allFilters p.2, ∀ tok ∈ findPlaceholders f,
          (lookupAssoc rts tok).isSome = true)
    ∧ validate_road_types c9Trunk = ["trunk: Unable to map \x27primary\x27"] := by
  refine ⟨?_, ?_, rfl⟩
  · intro rts rt rc f tok hmem hf htok hnone
    unfold validate_road_types
    rw [List.mem_flatMap]
    refine ⟨(rt, rc), hmem, ?_⟩
    rw [List.mem_flatMap]
    refine ⟨f, hf, ?_⟩
    rw [List.mem_flatMap]
    refine ⟨tok, htok, ?_⟩
    rw [hnone]
    simp
  · intro rts
    unfold validate_road_types
    rw [List.flatMap_eq_nil_iff]
    constructor
    · intro h p hp f hf tok htok
      have h2 := h p hp
      rw [List.flatMap_eq_nil_iff] at h2
      have h3 := h2 f hf
      rw [List.flatMap_eq_nil_iff] at h3
      have h4 := h3 tok htok
      by_contra hb
      rw [Bool.not_eq_true] at hb
      rw [hb] at h4
      simp at h4
    · intro h p hp
      rw [List.flatMap_eq_nil_iff]
      intro f hf
      rw [List.flatMap_eq_nil_iff]
      intro tok htok
      rw [h p hp f hf tok htok]
      simp

/-- C9 witness: the trunk/primary warning is a member of the output. -/
theorem C9_placeholder_validation_witness :
    ("trunk: Unable to map \x27primary\x27") ∈ validate_road_types c9Trunk :=
  C9_placeholder_validation.1 c9Trunk "trunk"
    ⟨some "highway={primary}", none, none⟩ "highway={primary}" "primary"
    (by simp [c9Trunk]) (by simp [allFilters]) (by decide) rfl

/-- Reading a list after a set: position i holds the new value when it
is in range, every other position is unchanged. -/
theorem getD_set_eq (l : List String) (i p : Nat) (t : String) :
    (l.set i t).getD p "" = if p = i ∧ i < l.length then t else l.getD p "" := by
  rw [List.getD_eq_getElem?_getD, List.getD_eq_getElem?_getD, List.getElem?_set]
  by_cases h1 : i = p
  · subst h1
    by_cases h2 : i < l.length
    · simp [h2]
    · have h3 : l[i]? = none := List.getElem?_eq_none (Nat.le_of_not_lt h2)
      simp [h2, h3]
  · have h4 : ¬(p = i ∧ i < l.length) := fun hc => h1 hc.1.symm
    simp [h1, h4]

/-- The inner revision loop writes the text into exactly the k
positions starting at i, keeps the length, and succeeds whenever the
writes are in bounds. -/
theorem writeRange_spec :
    ∀ (k : Nat) (names : List String) (i : Nat) (t : String),
      i + k ≤ names.length →
      ∃ names2, writeRange names i k t = .ok names2 ∧
        names2.length = names.length ∧
        ∀ p, names2.getD p "" =
          if i ≤ p ∧ p < i + k then t else names.getD p "" := by
  intro k
  induction k with
  | zero =>
      intro names i t _
      refine ⟨names, rfl, rfl, fun p => ?_⟩
      rw [if_neg (by omega)]
  | succ n ih =>
      intro names i t hb
      have hi : i < names.length := by omega
      have hb2 : (i+1) + n ≤ (names.set i t).length := by
        rw [List.length_set]; omega
      obtain ⟨names2, heq, hlen, hval⟩ := ih (names.set i t) (i+1) t hb2
      refine ⟨names2, ?_, ?_, ?_⟩
      · rw [writeRange, if_pos hi]; exact heq
      · rw [hlen, List.length_set]
      · intro p
        rw [hval p, getD_set_eq]
        by_cases hc : i ≤ p ∧ p < i + (n+1)
        · rw [if_pos hc]
          by_cases hc2 : i + 1 ≤ p ∧ p < i + 1 + n
          · rw [if_pos hc2]
          · have hpi : p = i := by omega
            rw [if_neg hc2, if_pos ⟨hpi, hi⟩]
        · have hp1 : ¬(i + 1 ≤ p ∧ p < i + 1 + n) := by omega
          have hp2 : ¬(p = i ∧ i < names.length) := by
            intro hx
            exact hc ⟨by omega, by omega⟩
          rw [if_neg hc, if_neg hp1, if_neg hp2]

/-- The revision loop of the speed-table header handling: whenever all
writes are in bounds it succeeds, preserves the number of columns, and
the final name at each position is described by the ordinal-index
walk reviseValueAux. -/
theorem reviseNamesAux_spec :
    ∀ (ths : List Node) (i : Nat) (names : List String),
      inBoundsThs names.length i ths = true →
      ∃ names2, reviseNamesAux ths i names = .ok names2 ∧
        names2.length = names.length ∧
        ∀ p, names2.getD p "" = reviseValueAux p i ths (names.getD p "") := by
  intro ths
  induction ths with
  | nil =>
      intro i names _
      exact ⟨names, rfl, rfl, fun p => rfl⟩
  | cons th rest ih =>
      intro i names hb
      rw [inBoundsThs, Bool.and_eq_true] at hb
      obtain ⟨hb1, hb2⟩ := hb
      simp only [Bool.or_eq_true, decide_eq_true_eq] at hb1
      by_cases ht : getTextStrip th = ""
      · simp only [reviseNamesAux]
        rw [if_neg (by simp [ht])]
        obtain ⟨names2, heq, hlen, hval⟩ := ih (i+1) names hb2
        refine ⟨names2, heq, hlen, fun p => ?_⟩
        rw [hval p, reviseValueAux]
        rw [if_neg (by simp [ht])]
      · by_cases hz : (nodeColspan th).toNat = 0
        · obtain ⟨names2, heq, hlen, hval⟩ := ih (i+1) names hb2
          refine ⟨names2, ?_, hlen, fun p => ?_⟩
          · simp only [reviseNamesAux]
            rw [if_pos (by simp [ht]), hz]
            simp only [writeRange]
            exact heq
          · rw [hval p, reviseValueAux]
            rw [if_neg (by rw [hz]; rintro ⟨-, h1, h2⟩; omega)]
        · have hbnd : i + (nodeColspan th).toNat ≤ names.length := by
            rcases hb1 with (h | h) | h
            · exact absurd h ht
            · exact absurd h hz
            · exact h
          obtain ⟨namesW, heqW, hlenW, hvalW⟩ :=
            writeRange_spec ((nodeColspan th).toNat) names i (getTextStrip th) hbnd
          have hb2W : inBoundsThs namesW.length (i+1) rest = true := by
            rw [hlenW]; exact hb2
          obtain ⟨names2, heq, hlen, hval⟩ := ih (i+1) namesW hb2W
          refine ⟨names2, ?_, by rw [hlen, hlenW], fun p => ?_⟩
          · simp only [reviseNamesAux]
            rw [if_pos (by simp [ht]), heqW]
            exact heq
          · rw [hval p, hvalW p, reviseValueAux]
            congr 1
            by_cases hc : i ≤ p ∧ p < i + (nodeColspan th).toNat
            · rw [if_pos hc, if_pos ⟨ht, hc.1, hc.2⟩]
            · rw [if_neg hc, if_neg (fun hx => hc ⟨hx.2.1, hx.2.2⟩)]

/-- C10: after column names exist, a header row is applied by ordinal
position among its th tags: the i-th non-empty th with colspan k
overwrites entries i through i+k-1 (later tags win on overlap), so
neither vertical spans from earlier header rows nor colspans of
earlier cells in the same row shift where a revision lands.  The
concrete part shows a first cell with colspan 2 followed by a second
cell: the second cell lands at index 1 (inside the colspan of the
first), not at logical column 2. -/
theorem C10_header_revision :
    (∀ (ths : List Node) (names : List String),
        inBoundsThs names.length 0 ths = true →
        ∃ names2, reviseNamesAux ths 0 names = .ok names2 ∧
          names2.length = names.length ∧
          ∀ p, names2.getD p "" = reviseValueAux p 0 ths (names.getD p ""))
    ∧ reviseNamesAux [c10ThY, thCell "X"] 0 ["A","B","C"] = .ok ["Y","X","C"] :=
  ⟨fun ths names hb => reviseNamesAux_spec ths 0 names hb, rfl⟩

/-- C10 witness: the characterization applied to one concrete header. -/
theorem C10_header_revision_witness :
    ∃ names2, reviseNamesAux [thCell "X"] 0 ["A","B"] = .ok names2 ∧
      names2.length = (["A","B"] : List String).length ∧
      ∀ p, names2.getD p "" =
        reviseValueAux p 0 [thCell "X"] ((["A","B"] : List String).getD p "") :=
  C10_header_revision.1 [thCell "X"] ["A","B"] (by decide)

/-- Monadic bind on a successful Except value reduces to the
continuation. -/
theorem exceptBind_ok {ε β γ : Type} (a : β) (f : β → Except ε γ) :
    (Except.ok a : Except ε β) >>= f = f a := rfl

/-- C5: a data row whose jurisdiction display name fails resolution
appends exactly the one warning "name: Unknown country / subdivision"
and is skipped: the result mapping is untouched by the row, and the
only other state changes are the ones every row performs (header
handling and the grid-resolver tick). -/
theorem C5_unknown_country_skip (ref : Reference) (f : SpeedParseFunc)
    (st : SpeedState) (row : Node) (names : List String) (c0 : Node) :
    processThs st.columnNames (findAll "th" row) = .ok names →
    (findAll "td" row).isEmpty = false →
    get_td (set_tds nodeRowspan nodeColspan st.helper (findAll "td" row)) 0 = .ok c0 →
    get_country_code ref (getTextStrip c0) = none →
    processRow ref f st row = .ok
      { columnNames := names, result := st.result,
        warnings := st.warnings ++
          [getTextStrip c0 ++ ": Unknown country / subdivision"],
        helper := set_tds nodeRowspan nodeColspan st.helper (findAll "td" row) } := by
  intro h1 h2 h3 h4
  simp only [processRow, h1, exceptBind_ok, h2, Bool.false_eq_true, if_false, h3, h4]
  rfl

/-- C5 witness: the Unknownland row on a fresh state. -/
theorem C5_unknown_country_skip_witness :
    processRow emptyRef okEmptyF ⟨[], [], [], []⟩ c5Row = .ok
      { columnNames := [], result := [],
        warnings := ["Unknownland: Unknown country / subdivision"],
        helper := set_tds nodeRowspan nodeColspan [] (findAll "td" c5Row) } :=
  C5_unknown_country_skip emptyRef okEmptyF ⟨[], [], [], []⟩ c5Row []
    (tdCell "Unknownland") rfl rfl rfl rfl

mutual
/-- After stripping, a node has no descendant named sup or img. -/
theorem findAll_stripJunk_node (nm : String) (h : nm = "sup" ∨ nm = "img") :
    ∀ t : Node, findAll nm (stripJunk t) = []
  | .text _ => rfl
  | .elem n a cs => by
      rw [stripJunk, findAll]
      exact findAll_stripJunk_list nm h cs
/-- After stripping, a child list has no descendant named sup or img. -/
theorem findAll_stripJunk_list (nm : String) (h : nm = "sup" ∨ nm = "img") :
    ∀ cs : NodeList, findAllList nm (stripJunkList cs) = []
  | .nil => rfl
  | .cons c cs => by
      rw [stripJunkList]
      by_cases hc : is_uninteresting c = true
      · rw [if_pos hc]
        exact findAll_stripJunk_list nm h cs
      · rw [if_neg hc]
        show (match stripJunk c with
            | Node.elem n _ _ => if n = nm then [stripJunk c] else []
            | Node.text _ => ([] : List Node)) ++
          findAll nm (stripJunk c) ++ findAllList nm (stripJunkList cs) = []
        rw [findAll_stripJunk_node nm h c, findAll_stripJunk_list nm h cs]
        have hname : (match stripJunk c with
            | Node.elem n _ _ => if n = nm then [stripJunk c] else []
            | Node.text _ => ([] : List Node)) = [] := by
          cases c with
          | text s => rfl
          | elem n a cs2 =>
              rw [stripJunk]
              simp only [is_uninteresting, Bool.or_eq_true, decide_eq_true_eq] at hc
              have hn : ¬(n = nm) := by
                intro he
                rcases h with h2 | h2 <;> rw [he, h2] at hc <;>
                  exact hc (by simp)
              show (if n = nm then [Node.elem n a (stripJunkList cs2)] else []) = []
              rw [if_neg hn]
        rw [hname]
        simp
end

/-- C8 amended: the decoration stripping is performed in place on the
very table object the caller passed in, not on a working copy: after
either extractor runs, the caller's table is exactly stripJunk of its
previous value, and that tree contains no sup or img descendant at all. -/
theorem C8_strip_in_place :
    (∀ t : Node, (parse_road_types_table t).2 = stripJunk t)
    ∧ (∀ (ref : Reference) (f : SpeedParseFunc) (t : Node),
        (parse_speed_table ref f t).2 = stripJunk t)
    ∧ (∀ t : Node, findAll "sup" (stripJunk t) = [] ∧
        findAll "img" (stripJunk t) = []) :=
  ⟨fun _ => rfl, fun _ _ _ => rfl,
   fun t => ⟨findAll_stripJunk_node "sup" (Or.inl rfl) t,
             findAll_stripJunk_node "img" (Or.inr rfl) t⟩⟩

/-- C7 amended: for a non-override name the resolver splits on every
colon and uses only the first two segments: the trimmed segment 0 is
looked up as the country (failing with no code when the reference does
not know it), and when the split produced more than one segment the
trimmed segment 1 is matched against the subdivision names, so
Country:Sub:division yields subdivision text Sub, not Sub:division. -/
theorem C7_subdivision_split :
    (∀ (ref : Reference) (name cc : String),
        lookupAssoc country_codes name = none →
        ref.lookupAlpha2 (pyStrip ((splitOnChar ':' name).headD "")) = some cc →
        1 < (splitOnChar ':' name).length →
        get_country_code ref name =
          (match (ref.subdivisions cc).find?
              (fun s => s.name = pyStrip ((splitOnChar ':' name).getD 1 "")) with
           | some s => some s.code
           | none => none))
    ∧ (∀ (ref : Reference) (name : String),
        lookupAssoc country_codes name = none →
        ref.lookupAlpha2 (pyStrip ((splitOnChar ':' name).headD "")) = none →
        get_country_code ref name = none)
    ∧ splitOnChar ':' "Country:Sub:division" = ["Country", "Sub", "division"]
    ∧ get_country_code c7Ref "X:Sub:division" = some "XX-2" := by
  refine ⟨?_, ?_, rfl, rfl⟩
  · intro ref name cc h1 h2 h3
    unfold get_country_code
    rw [h1]
    simp only [h2]
    rw [if_pos h3]
  · intro ref name h1 h2
    unfold get_country_code
    rw [h1]
    simp only [h2]

/-- C7 witness: the general characterization applied at the concrete
three-segment name. -/
theorem C7_subdivision_split_witness :
    get_country_code c7Ref "X:Sub:division" =
      (match (c7Ref.subdivisions "XX").find?
          (fun s => s.name = pyStrip ((splitOnChar ':' "X:Sub:division").getD 1 "")) with
       | some s => some s.code
       | none => none) :=
  C7_subdivision_split.1 c7Ref "X:Sub:division" "XX" (by decide) rfl (by decide)

/-- Unfolding lemma for lookupCache on a cons cell. -/
theorem lookupCache_cons {α : Type} (e : Nat × Int × α) (rest : Cache α) (q : Nat) :
    lookupCache (e :: rest) q = if e.1 = q then some e.2 else lookupCache rest q := rfl

/-- Unfolding lemma for cacheSet on a cons cell. -/
theorem cacheSet_cons {α : Type} (e : Nat × Int × α) (rest : Cache α) (k : Nat) (v : Int × α) :
    cacheSet (e :: rest) k v = if e.1 = k then (k, v) :: rest else e :: cacheSet rest k v := rfl

/-- Unfolding lemma for evictTick on a cons cell. -/
theorem evictTick_cons {α : Type} (e : Nat × Int × α) (rest : Cache α) :
    evictTick (e :: rest) =
      if e.2.1 = 1 then evictTick rest else (e.1, e.2.1 - 1, e.2.2) :: evictTick rest := by
  obtain ⟨k, r, v⟩ := e
  rfl

/-- Reading a cache after a dict assignment: the assigned key returns
the new value, every other key is unchanged. -/
theorem lookupCache_cacheSet {α : Type} :
    ∀ (cache : Cache α) (k : Nat) (v : Int × α) (q : Nat),
      lookupCache (cacheSet cache k v) q =
        if q = k then some v else lookupCache cache q := by
  intro cache k v
  induction cache with
  | nil =>
      intro q
      by_cases h : q = k
      · subst h
        simp [cacheSet, lookupCache]
      · simp [cacheSet, lookupCache, h, show ¬(k = q) from fun hh => h hh.symm]
  | cons e rest ih =>
      intro q
      rw [cacheSet_cons]
      by_cases hqk : q = k
      · subst hqk
        rw [if_pos rfl]
        by_cases he : e.1 = q
        · rw [if_pos he, lookupCache_cons, if_pos rfl]
        · rw [if_neg he, lookupCache_cons, if_neg he, ih, if_pos rfl]
      · rw [if_neg hqk]
        by_cases he : e.1 = k
        · rw [if_pos he, lookupCache_cons, lookupCache_cons,
              if_neg (show ¬((k : Nat) = q) from fun hh => hqk hh.symm),
              if_neg (show ¬(e.1 = q) from fun hh => hqk (he.symm.trans hh).symm)]
        · rw [if_neg he, lookupCache_cons, lookupCache_cons]
          by_cases heq : e.1 = q
          · rw [if_pos heq, if_pos heq]
          · rw [if_neg heq, if_neg heq, ih, if_neg hqk]

/-- Keys present after a dict assignment. -/
theorem mem_keys_cacheSet {α : Type} :
    ∀ (cache : Cache α) (k : Nat) (v : Int × α) (q : Nat),
      (q ∈ (cacheSet cache k v).map (fun e => e.1)) ↔
        q ∈ cache.map (fun e => e.1) ∨ q = k := by
  intro cache k v
  induction cache with
  | nil => intro q; simp [cacheSet]
  | cons e rest ih =>
      intro q
      rw [cacheSet_cons]
      by_cases he : e.1 = k
      · rw [if_pos he]
        simp only [List.map_cons, List.mem_cons, he]
        tauto
      · rw [if_neg he]
        simp only [List.map_cons, List.mem_cons, ih]
        tauto

/-- Dict assignment preserves distinctness of keys. -/
theorem nodup_cacheSet {α : Type} :
    ∀ (cache : Cache α) (k : Nat) (v : Int × α),
      KeysNodup cache → KeysNodup (cacheSet cache k v) := by
  intro cache k v
  induction cache with
  | nil => intro _; simp [cacheSet, KeysNodup]
  | cons e rest ih =>
      intro hnd
      rw [KeysNodup, List.map_cons, List.nodup_cons] at hnd
      rw [cacheSet_cons]
      by_cases he : e.1 = k
      · rw [if_pos he, KeysNodup, List.map_cons, List.nodup_cons]
        exact ⟨he ▸ hnd.1, hnd.2⟩
      · rw [if_neg he, KeysNodup, List.map_cons, List.nodup_cons]
        refine ⟨?_, ih hnd.2⟩
        rw [mem_keys_cacheSet]
        rintro (h | h)
        · exact hnd.1 h
        · exact he h

/-- A key that is not in the cache reads as none. -/
theorem lookupCache_eq_none {α : Type} :
    ∀ (cache : Cache α) (q : Nat), q ∉ cache.map (fun e => e.1) →
      lookupCache cache q = none := by
  intro cache
  induction cache with
  | nil => intro q _; rfl
  | cons e rest ih =>
      intro q h
      simp only [List.map_cons, List.mem_cons] at h
      push_neg at h
      rw [lookupCache_cons, if_neg (fun hh => h.1 hh.symm), ih q h.2]

/-- Eviction never introduces a key. -/
theorem mem_keys_evict {α : Type} :
    ∀ (cache : Cache α) (q : Nat),
      q ∈ (evictTick cache).map (fun e => e.1) → q ∈ cache.map (fun e => e.1) := by
  intro cache
  induction cache with
  | nil => intro q h; exact h
  | cons e rest ih =>
      intro q h
      rw [evictTick_cons] at h
      by_cases hr : e.2.1 = 1
      · rw [if_pos hr] at h
        simp only [List.map_cons, List.mem_cons]
        exact Or.inr (ih q h)
      · rw [if_neg hr] at h
        simp only [List.map_cons, List.mem_cons] at h ⊢
        rcases h with h | h
        · exact Or.inl h
        · exact Or.inr (ih q h)

/-- Eviction preserves distinctness of keys. -/
theorem nodup_evict {α : Type} :
    ∀ cache : Cache α, KeysNodup cache → KeysNodup (evictTick cache) := by
  intro cache
  induction cache with
  | nil => intro h; exact h
  | cons e rest ih =>
      intro hnd
      rw [KeysNodup, List.map_cons, List.nodup_cons] at hnd
      rw [evictTick_cons]
      by_cases hr : e.2.1 = 1
      · rw [if_pos hr]
        exact ih hnd.2
      · rw [if_neg hr, KeysNodup, List.map_cons, List.nodup_cons]
        exact ⟨fun hm => hnd.1 (mem_keys_evict rest e.1 hm), ih hnd.2⟩

/-- Reading after the decrement-and-evict pass: an entry with remaining
count exactly 1 disappears, every other entry is decremented. -/
theorem lookupCache_evict {α : Type} :
    ∀ (cache : Cache α) (q : Nat), KeysNodup cache →
      lookupCache (evictTick cache) q =
        (lookupCache cache q).bind
          (fun rv => if rv.1 = 1 then none else some (rv.1 - 1, rv.2)) := by
  intro cache
  induction cache with
  | nil => intro q _; rfl
  | cons e rest ih =>
      intro q hnd
      rw [KeysNodup, List.map_cons, List.nodup_cons] at hnd
      rw [evictTick_cons, lookupCache_cons]
      by_cases heq : e.1 = q
      · rw [if_pos heq, Option.some_bind]
        by_cases hr : e.2.1 = 1
        · simp only [if_pos hr]
          exact lookupCache_eq_none _ q
            (fun hm => (heq ▸ hnd.1) (mem_keys_evict rest q hm))
        · simp only [if_neg hr]
          simp [lookupCache_cons, heq]
      · rw [if_neg heq]
        by_cases hr : e.2.1 = 1
        · simp only [if_pos hr]
          exact ih q hnd.2
        · simp only [if_neg hr]
          simp only [lookupCache_cons]
          rw [if_neg heq]
          exact ih q hnd.2

/-- Unfolding lemma for the colspan loop at zero. -/
theorem writeCols_zero {α : Type} (cache : Cache α) (s : Nat) (rs : Int) (v : α) :
    writeCols cache s 0 rs v = (cache, s) := rfl

/-- Unfolding lemma for the colspan loop at a successor. -/
theorem writeCols_succ {α : Type} (cache : Cache α) (s m : Nat) (rs : Int) (v : α) :
    writeCols cache s (m+1) rs v =
      writeCols (cacheSet cache s (rs, v)) (s+1) m rs v := rfl

/-- The colspan loop leaves the cursor advanced by exactly n. -/
theorem writeCols_snd {α : Type} :
    ∀ (n : Nat) (cache : Cache α) (s : Nat) (rs : Int) (v : α),
      (writeCols cache s n rs v).2 = s + n := by
  intro n
  induction n with
  | zero => intro cache s rs v; rfl
  | succ m ih =>
      intro cache s rs v
      rw [writeCols_succ, ih]
      omega

/-- Reading after the colspan loop: the n written columns hold the new
entry, everything else is unchanged. -/
theorem lookupCache_writeCols {α : Type} :
    ∀ (n : Nat) (cache : Cache α) (s : Nat) (rs : Int) (v : α) (q : Nat),
      lookupCache (writeCols cache s n rs v).1 q =
        if s ≤ q ∧ q < s + n then some (rs, v) else lookupCache cache q := by
  intro n
  induction n with
  | zero =>
      intro cache s rs v q
      rw [writeCols_zero, if_neg (by omega)]
  | succ m ih =>
      intro cache s rs v q
      rw [writeCols_succ, ih, lookupCache_cacheSet]
      by_cases h1 : s + 1 ≤ q ∧ q < s + 1 + m
      · rw [if_pos h1, if_pos (by omega)]
      · rw [if_neg h1]
        by_cases h2 : q = s
        · rw [if_pos h2, if_pos (by omega)]
        · rw [if_neg h2, if_neg (by omega)]

/-- The colspan loop preserves distinctness of keys. -/
theorem nodup_writeCols {α : Type} :
    ∀ (n : Nat) (cache : Cache α) (s : Nat) (rs : Int) (v : α),
      KeysNodup cache → KeysNodup (writeCols cache s n rs v).1 := by
  intro n
  induction n with
  | zero => intro cache s rs v h; exact h
  | succ m ih =>
      intro cache s rs v h
      rw [writeCols_succ]
      exact ih _ _ _ _ (nodup_cacheSet _ _ _ h)

/-- Unfolding lemma for the insertion pass on a cons cell. -/
theorem insertTdsAux_cons {α : Type} (rsOf csOf : α → Int) (cache : Cache α)
    (i : Nat) (td : α) (rest : List α) :
    insertTdsAux rsOf csOf cache i (td :: rest) =
      (let start := nextFree cache i
       let out := writeCols cache start ((csOf td).toNat) (rsOf td) td
       let tail := insertTdsAux rsOf csOf out.1 out.2 rest
       (tail.1, (List.range ((csOf td).toNat)).map (fun j => start + j) ++ tail.2)) := rfl

/-- Membership in the block of columns written by one cell. -/
theorem mem_range_map (s n q : Nat) :
    q ∈ (List.range n).map (fun j => s + j) ↔ s ≤ q ∧ q < s + n := by
  simp only [List.mem_map, List.mem_range]
  constructor
  · rintro ⟨j, hj, rfl⟩
    omega
  · intro h
    exact ⟨q - s, by omega, by omega⟩

/-- Frame property of the insertion pass: a column it did not write
reads exactly as before. -/
theorem lookupCache_insertTdsAux {α : Type} (rsOf csOf : α → Int) :
    ∀ (tds : List α) (cache : Cache α) (i : Nat) (q : Nat),
      q ∉ (insertTdsAux rsOf csOf cache i tds).2 →
      lookupCache (insertTdsAux rsOf csOf cache i tds).1 q = lookupCache cache q := by
  intro tds
  induction tds with
  | nil => intro cache i q _; rfl
  | cons td rest ih =>
      intro cache i q h
      rw [insertTdsAux_cons] at h ⊢
      simp only [List.mem_append] at h
      push_neg at h
      rw [ih _ _ q h.2, lookupCache_writeCols,
          if_neg (fun hc => h.1 ((mem_range_map _ _ q).mpr hc))]

/-- The insertion pass preserves distinctness of keys. -/
theorem nodup_insertTdsAux {α : Type} (rsOf csOf : α → Int) :
    ∀ (tds : List α) (cache : Cache α) (i : Nat),
      KeysNodup cache → KeysNodup (insertTdsAux rsOf csOf cache i tds).1 := by
  intro tds
  induction tds with
  | nil => intro cache i h; exact h
  | cons td rest ih =>
      intro cache i h
      rw [insertTdsAux_cons]
      exact ih _ _ (nodup_writeCols _ _ _ _ _ h)

/-- Frame property of set_tds: a column the new physical row did not
write shows exactly the evict-pass view of the previous state. -/
theorem lookupCache_set_tds_not_written {α : Type} (rsOf csOf : α → Int)
    (cache : Cache α) (tds : List α) (q : Nat) :
    q ∉ writtenCols rsOf csOf cache tds →
    lookupCache (set_tds rsOf csOf cache tds) q = lookupCache (evictTick cache) q :=
  fun h => lookupCache_insertTdsAux rsOf csOf tds (evictTick cache) 0 q h

/-- set_tds preserves distinctness of keys. -/
theorem nodup_set_tds {α : Type} (rsOf csOf : α → Int)
    (cache : Cache α) (tds : List α) :
    KeysNodup cache → KeysNodup (set_tds rsOf csOf cache tds) :=
  fun h => nodup_insertTdsAux rsOf csOf tds (evictTick cache) 0 (nodup_evict cache h)

/-- get_td on a column the cache holds. -/
theorem get_td_some {α : Type} (cache : Cache α) (idx : Nat) (rv : Int × α)
    (h : lookupCache cache idx = some rv) : get_td cache idx = .ok rv.2 := by
  unfold get_td
  rw [h]

/-- get_td on a column the cache does not hold raises KeyError. -/
theorem get_td_none {α : Type} (cache : Cache α) (idx : Nat)
    (h : lookupCache cache idx = none) : get_td cache idx = .error .keyError := by
  unfold get_td
  rw [h]

/-- Feeding one more physical row is one set_tds step. -/
theorem runRows_cons {α : Type} (rsOf csOf : α → Int) (s : Cache α)
    (row : List α) (rest : List (List α)) :
    runRows rsOf csOf s (row :: rest) =
      runRows rsOf csOf (set_tds rsOf csOf s row) rest := rfl

/-- Running rows that never write over column q: while the remaining
count stays above the number of rows run, the entry survives with its
count decremented once per row. -/
theorem runRows_span {α : Type} (rsOf csOf : α → Int) (q : Nat) (v : α) :
    ∀ (rows : List (List α)) (s : Cache α) (n : Int),
      KeysNodup s →
      lookupCache s q = some (n, v) →
      (∀ i (h : i < rows.length),
        q ∉ writtenCols rsOf csOf (runRows rsOf csOf s (rows.take i)) (rows.get ⟨i, h⟩)) →
      (rows.length : Int) < n →
      lookupCache (runRows rsOf csOf s rows) q = some (n - rows.length, v) ∧
      KeysNodup (runRows rsOf csOf s rows) := by
  intro rows
  induction rows with
  | nil =>
      intro s n hnd hl _ _
      refine ⟨?_, hnd⟩
      simpa using hl
  | cons row rest ih =>
      intro s n hnd hl hw hlen
      have hlen1 : (rest.length : Int) + 1 < n := by
        simpa using hlen
      have h0 : q ∉ writtenCols rsOf csOf s row := hw 0 (by simp)
      have hn1 : n ≠ 1 := by omega
      have hstep : lookupCache (set_tds rsOf csOf s row) q = some (n - 1, v) := by
        rw [lookupCache_set_tds_not_written rsOf csOf s row q h0,
            lookupCache_evict s q hnd, hl]
        simp [hn1]
      have hnd2 := nodup_set_tds rsOf csOf s row hnd
      have hw2 : ∀ i (h : i < rest.length),
          q ∉ writtenCols rsOf csOf
            (runRows rsOf csOf (set_tds rsOf csOf s row) (rest.take i))
            (rest.get ⟨i, h⟩) := by
        intro i h
        have h2 := hw (i+1) (by simpa using Nat.succ_lt_succ h)
        simpa [List.take_succ_cons, runRows_cons] using h2
      have hlen2 : (rest.length : Int) < n - 1 := by omega
      obtain ⟨ha, hb⟩ := ih (set_tds rsOf csOf s row) (n - 1) hnd2 hstep hw2 hlen2
      refine ⟨?_, hb⟩
      rw [runRows_cons, ha]
      have hc : n - 1 - (rest.length : Int) = n - ((row :: rest).length : Int) := by
        simp only [List.length_cons]
        push_cast
        omega
      rw [hc]

/-- C2 amended: provided no later physical row writes over the column
(a colspan overrun of an earlier cell in a later row can do so, see the
counterexample), a cell held at column c with remaining count N at its
own row is returned by get_td at c for that row and the N-1 following
rows; at the next row the decrement-and-evict pass, which runs before
the new row is inserted, removes the entry, so the column is absent
from the grid and get_td raises KeyError. -/
theorem C2_rowspan_visibility {α : Type} (rsOf csOf : α → Int) (s : Cache α)
    (c : Nat) (N : Nat) (v : α) (rows : List (List α)) (lastRow : List α)
    (hnd : KeysNodup s)
    (hN : 1 ≤ N)
    (hlook : lookupCache s c = some ((N : Int), v))
    (hlen : rows.length = N - 1)
    (hnw : ∀ i (h : i < rows.length),
        c ∉ writtenCols rsOf csOf (runRows rsOf csOf s (rows.take i)) (rows.get ⟨i, h⟩))
    (hnwLast : c ∉ writtenCols rsOf csOf (runRows rsOf csOf s rows) lastRow) :
    (∀ i, i ≤ rows.length → get_td (runRows rsOf csOf s (rows.take i)) c = .ok v)
    ∧ lookupCache (evictTick (runRows rsOf csOf s rows)) c = none
    ∧ get_td (set_tds rsOf csOf (runRows rsOf csOf s rows) lastRow) c = .error .keyError := by
  obtain ⟨hval, hndR⟩ := runRows_span rsOf csOf c v rows s (N : Int) hnd hlook hnw
    (by have h2 : rows.length < N := by omega
        exact_mod_cast h2)
  have hone : (N : Int) - (rows.length : Int) = 1 := by
    rw [hlen, Nat.cast_sub hN]
    simp
  rw [hone] at hval
  have hev : lookupCache (evictTick (runRows rsOf csOf s rows)) c = none := by
    rw [lookupCache_evict _ _ hndR, hval]
    simp
  refine ⟨?_, hev, ?_⟩
  · intro i hi
    have hlen_take : (rows.take i).length = i := by
      rw [List.length_take]
      omega
    have htake : ∀ j (h : j < (rows.take i).length),
        c ∉ writtenCols rsOf csOf
          (runRows rsOf csOf s ((rows.take i).take j)) ((rows.take i).get ⟨j, h⟩) := by
      intro j hj
      have hj1 : j < i := by omega
      have hj2 : j < rows.length := by omega
      have hx := hnw j hj2
      have e1 : (rows.take i).take j = rows.take j := by
        rw [List.take_take]
        congr 1
        omega
      have e2 : (rows.take i).get ⟨j, hj⟩ = rows.get ⟨j, hj2⟩ := by
        simp [List.get_eq_getElem, List.getElem_take]
      rw [e1, e2]
      exact hx
    obtain ⟨hvi, -⟩ := runRows_span rsOf csOf c v (rows.take i) s (N : Int) hnd hlook htake
      (by rw [hlen_take]
          have h3 : i < N := by omega
          exact_mod_cast h3)
    exact get_td_some _ _ _ hvi
  · apply get_td_none
    rw [lookupCache_set_tds_not_written rsOf csOf _ lastRow c hnwLast, hev]

/-- C2 witness: a rowspan-2 cell on an otherwise empty grid with one
quiet following row is visible for both rows and evicted on the third. -/
theorem C2_rowspan_visibility_witness :
    get_td (runRows rsOfT csOfT [(0, (2, (7,2,1)))]
      (([[]] : List (List (Nat × Int × Int))).take 1)) 0 = .ok (7,2,1)
    ∧ lookupCache (evictTick (runRows rsOfT csOfT [(0, (2, (7,2,1)))]
      ([[]] : List (List (Nat × Int × Int))))) 0 = none
    ∧ get_td (set_tds rsOfT csOfT (runRows rsOfT csOfT [(0, (2, (7,2,1)))]
      ([[]] : List (List (Nat × Int × Int)))) []) 0 = .error .keyError :=
  let h := C2_rowspan_visibility rsOfT csOfT [(0, (2, (7,2,1)))] 0 2 (7,2,1)
    ([[]] : List (List (Nat × Int × Int))) []
    (by simp [KeysNodup]) (by decide) rfl rfl
    (by decide) (by decide)
  ⟨h.1 1 (by decide), h.2.1, h.2.2⟩

/-- C6 amended: a missing rowspan or colspan attribute defaults to 1,
and a cell whose two spans read as 1 occupies exactly one column of the
current row and is evicted by the next tick; but a colspan of 0 makes
the cell occupy no column at all, and an entry whose remaining count is
0 or below is never evicted: the eviction test removes only a count of
exactly 1, so the count is decremented past zero forever. -/
theorem C6_span_default :
    (∀ (name : String) (attrs : List (String × Int)) (cs : NodeList),
        attrs.find? (fun a => a.1 = "rowspan") = none →
        nodeRowspan (.elem name attrs cs) = 1)
    ∧ (∀ (name : String) (attrs : List (String × Int)) (cs : NodeList),
        attrs.find? (fun a => a.1 = "colspan") = none →
        nodeColspan (.elem name attrs cs) = 1)
    ∧ (∀ td : Node, nodeRowspan td = 1 → nodeColspan td = 1 →
        set_tds nodeRowspan nodeColspan [] [td] = [(0, (1, td))] ∧
        evictTick (set_tds nodeRowspan nodeColspan [] [td]) = [])
    ∧ (∀ (td : Node) (cache : Cache Node), nodeColspan td = 0 →
        set_tds nodeRowspan nodeColspan cache [td] = evictTick cache)
    ∧ (∀ (s : Cache Node) (c : Nat) (r : Int) (v : Node),
        KeysNodup s → lookupCache s c = some (r, v) → r ≤ 0 →
        ∀ k : Nat,
          lookupCache (runRows nodeRowspan nodeColspan s (List.replicate k [])) c =
            some (r - (k : Int), v)) := by
  refine ⟨?_, ?_, ?_, ?_, ?_⟩
  · intro name attrs cs h
    show ((match List.find? (fun a => decide (a.1 = "rowspan")) attrs with
          | some a => a.2
          | none => 1 : Int)) = (1 : Int)
    rw [h]
  · intro name attrs cs h
    show ((match List.find? (fun a => decide (a.1 = "colspan")) attrs with
          | some a => a.2
          | none => 1 : Int)) = (1 : Int)
    rw [h]
  · intro td h1 h2
    have hset : set_tds nodeRowspan nodeColspan [] [td] = [(0, (1, td))] := by
      rw [show set_tds nodeRowspan nodeColspan [] [td] =
            (insertTdsAux nodeRowspan nodeColspan [] 0 [td]).1 from rfl,
          insertTdsAux_cons]
      simp only [h1, h2]
      rfl
    exact ⟨hset, by rw [hset]; rfl⟩
  · intro td cache h
    rw [show set_tds nodeRowspan nodeColspan cache [td] =
          (insertTdsAux nodeRowspan nodeColspan (evictTick cache) 0 [td]).1 from rfl,
        insertTdsAux_cons]
    simp only [h]
    rfl
  · intro s c r v hnd hl hr k
    induction k generalizing s r with
    | zero =>
        simpa using hl
    | succ m ihk =>
        have hr1 : r ≠ 1 := by omega
        have hstep : lookupCache (evictTick s) c = some (r - 1, v) := by
          rw [lookupCache_evict s c hnd, hl]
          simp [hr1]
        have hrun : runRows nodeRowspan nodeColspan s (List.replicate (m+1) []) =
            runRows nodeRowspan nodeColspan (evictTick s) (List.replicate m []) := by
          rw [List.replicate_succ, runRows_cons]
          rfl
        rw [hrun, ihk (evictTick s) (r - 1) (nodup_evict s hnd) hstep (by omega)]
        have hc : r - 1 - (m : Int) = r - ((m + 1 : Nat) : Int) := by
          push_cast
          omega
        rw [hc]

/-- C6 witness: a td with no span attributes at all occupies one column
and is evicted after one row, and an entry with remaining count 0 is
still present two rows later with its count at -2. -/
theorem C6_span_default_witness :
    nodeRowspan (.elem "td" [("class", 5)] .nil) = 1
    ∧ (set_tds nodeRowspan nodeColspan [] [tdCell "z"] = [(0, (1, tdCell "z"))] ∧
        evictTick (set_tds nodeRowspan nodeColspan [] [tdCell "z"]) = [])
    ∧ lookupCache (runRows nodeRowspan nodeColspan [(0, (0, c6RowTd))]
        (List.replicate 2 [])) 0 = some ((0 : Int) - ((2 : Nat) : Int), c6RowTd) :=
  ⟨C6_span_default.1 "td" [("class", 5)] .nil rfl,
   C6_span_default.2.2.1 (tdCell "z") rfl rfl,
   C6_span_default.2.2.2.2 [(0, (0, c6RowTd))] 0 0 c6RowTd
     (by simp [KeysNodup]) rfl (by omega) 2⟩
